import Mathlib

/-!
# Verification of the pointer-inference state core of cwe_checker

This file gives a shallow embedding of the pointer-inference `State`
operations, the `Arg`/`ExternSymbol`/`CallingConvention` model and the
variadic-argument resolver of the repository, and proves or refutes the
frozen claims about them.

Conventions of the embedding:
* Rust `BTreeMap`/`BTreeSet` values are embedded as association lists /
  lists; the well-formedness predicate of a `State` records the key-nodup
  invariant that the Rust container types enforce by construction.
* Machine integers are `Nat`/`Int` with explicit reduction modulo `2 ^ w`.
* Fallible Rust functions returning `Result` are embedded with `Except`;
  `&mut self` methods returning `Result` become `State → State × Option String`
  (the state component carries the partial mutations) or `Except String State`.
* A Rust `assert!` failure (a panic, not a recoverable error) is embedded by
  an `Option` result being `none`.
* Code of the repository that is not part of the excerpt (the value domain,
  the object list internals, the register access helpers and the variadic
  resolver) is modelled from the specification; every such definition carries
  a doc comment starting with `Modelled from the spec:`.
-/

set_option linter.unusedVariables false

namespace Cwe

/-- A variable (register) of the intermediate representation:
name, size in bytes, and the temporary-register flag. -/
structure Variable where
  name : String
  size : Nat
  is_temp : Bool
deriving DecidableEq

/-- A term identifier, consisting of an id string and an address string. -/
structure Tid where
  id : String
  address : String
deriving DecidableEq

/-- A bitvector: width in bits together with a value; all operations reduce
the value modulo `2 ^ width`. -/
structure Bitvector where
  width : Nat
  value : Nat
deriving DecidableEq

/-- The zero bitvector of the given bit width. -/
def Bitvector.zero (width : Nat) : Bitvector :=
  ⟨width, 0⟩

/-- Binary operators of the intermediate-representation expression grammar
(the subset relevant to stack-offset computations). -/
inductive BinOpType where
  | IntAdd
  | IntSub
  | IntMult
  | IntAnd
  | IntOr
  | IntXOr
deriving DecidableEq

/-- Unary operators of the intermediate-representation expression grammar. -/
inductive UnOpType where
  | IntNegate
  | Int2Comp
deriving DecidableEq

/-- Cast operators (only used as an example of an expression shape that the
stack-offset evaluator rejects). -/
inductive CastOpType where
  | IntZExt
  | IntSExt
deriving DecidableEq

/-- Expressions of the intermediate representation: variable references,
constants, binary and unary operator applications, plus further shapes
(casts, unknown inputs) that the stack-offset evaluator does not support. -/
inductive Expression where
  | Var : Variable → Expression
  | Const : Bitvector → Expression
  | BinOp : BinOpType → Expression → Expression → Expression
  | UnOp : UnOpType → Expression → Expression
  | Cast : CastOpType → Nat → Expression → Expression
  | Unknown : String → Nat → Expression
deriving DecidableEq

/-- Whether an expression is one of the shapes not supported by the
stack-offset evaluator (neither a variable, a constant, a binary operator
application nor a unary operator application). -/
def Expression.unsupported_shape : Expression → Bool
  | .Var _ => false
  | .Const _ => false
  | .BinOp _ _ _ => false
  | .UnOp _ _ => false
  | .Cast _ _ _ => true
  | .Unknown _ _ => true

/-- Apply a binary operator in the bitvector domain.  Mirrors `Bitvector::bin_op`:
the operation fails on operands of unequal width, otherwise it computes the
machine-integer result reduced modulo `2 ^ width`. -/
def Bitvector.bin_op (op : BinOpType) (a b : Bitvector) : Except String Bitvector :=
  if a.width = b.width then
    match op with
    | .IntAdd => .ok ⟨a.width, (a.value + b.value) % 2 ^ a.width⟩
    | .IntSub => .ok ⟨a.width, (a.value + (2 ^ a.width - b.value % 2 ^ a.width)) % 2 ^ a.width⟩
    | .IntMult => .ok ⟨a.width, (a.value * b.value) % 2 ^ a.width⟩
    | .IntAnd => .ok ⟨a.width, a.value &&& b.value⟩
    | .IntOr => .ok ⟨a.width, a.value ||| b.value⟩
    | .IntXOr => .ok ⟨a.width, a.value ^^^ b.value⟩
  else
    .error "Width mismatch"

/-- Apply a unary operator in the bitvector domain. -/
def Bitvector.un_op (op : UnOpType) (a : Bitvector) : Except String Bitvector :=
  match op with
  | .IntNegate => .ok ⟨a.width, (2 ^ a.width - 1) - a.value % 2 ^ a.width⟩
  | .Int2Comp => .ok ⟨a.width, (2 ^ a.width - a.value % 2 ^ a.width) % 2 ^ a.width⟩

/-- Data types of function arguments, as used by the argument resolver. -/
inductive Datatype where
  | Char
  | Integer
  | Pointer
  | Double
  | Unknown
deriving DecidableEq

/-- A parameter or return argument of a function: either passed in a register
(described by an expression) or passed on the stack (described by an address
expression and a byte size), each with an optional data type indicator. -/
inductive Arg where
  | Register : Expression → Option Datatype → Arg
  | Stack : Expression → Nat → Option Datatype → Arg
deriving DecidableEq

/-- If the given expression computes a constant offset to the given stack
register, then return the offset, else return an error.  Mirrors
`Arg::eval_stack_offset_expression`: a bare stack-register reference
evaluates to the zero bitvector of the register's width, a constant to
itself, binary and unary operator applications are evaluated recursively,
and every other expression shape is rejected. -/
def Arg.eval_stack_offset_expression (expression : Expression) (stack_register : Variable) :
    Except String Bitvector :=
  match expression with
  | .Var var =>
    if var = stack_register then
      .ok (Bitvector.zero (8 * var.size))
    else
      .error "Input register is not the stack register"
  | .Const bitvec => .ok bitvec
  | .BinOp op lhs rhs => do
    let lhs ← Arg.eval_stack_offset_expression lhs stack_register
    let rhs ← Arg.eval_stack_offset_expression rhs stack_register
    lhs.bin_op op rhs
  | .UnOp op arg => do
    let arg ← Arg.eval_stack_offset_expression arg stack_register
    arg.un_op op
  | _ => .error "Expression type not supported for argument values"

/-- If the argument is a stack argument, return its offset relative to the
current stack register value; return an error for register arguments.
Mirrors `Arg::eval_stack_offset`. -/
def Arg.eval_stack_offset (arg : Arg) (stack_register : Variable) : Except String Bitvector :=
  match arg with
  | .Register _ _ => .error "The argument is not a stack argument."
  | .Stack address _ _ => Arg.eval_stack_offset_expression address stack_register

/-- An extern symbol: a function dynamically linked from another binary. -/
structure ExternSymbol where
  tid : Tid
  addresses : List String
  name : String
  calling_convention : Option String
  parameters : List Arg
  return_values : List Arg
  no_return : Bool
  has_var_args : Bool
deriving DecidableEq

/-- If the extern symbol has exactly one return value that is passed in a
register, return the register.  Mirrors `ExternSymbol::get_unique_return_register`. -/
def ExternSymbol.get_unique_return_register (s : ExternSymbol) : Except String Variable :=
  match s.return_values with
  | [rv] =>
    match rv with
    | .Register (.Var var) _ => .ok var
    | .Register _ _ => .error "Return value is a sub-register"
    | .Stack _ _ _ => .error "Return value is passed on the stack"
  | _ => .error "Wrong number of return values"

/-- If the extern symbol has exactly one parameter, return the parameter.
Mirrors `ExternSymbol::get_unique_parameter`: note that only the parameter
count is checked, not the shape of the parameter. -/
def ExternSymbol.get_unique_parameter (s : ExternSymbol) : Except String Arg :=
  match s.parameters with
  | [p] => .ok p
  | _ => .error "Wrong number of parameter values"

/-- Calling convention related data. -/
structure CallingConvention where
  name : String
  integer_parameter_register : List Variable
  float_parameter_register : List Expression
  integer_return_register : List Variable
  float_return_register : List Expression
  callee_saved_register : List Variable
deriving DecidableEq

/-! ## Association-list helpers

These embed the Rust `BTreeMap` operations used by the state code. -/

/-- Look up the value stored under a key in an association list. -/
def lookupKey {α β : Type} [DecidableEq α] : List (α × β) → α → Option β
  | [], _ => none
  | (k, v) :: rest, a => if k = a then some v else lookupKey rest a

/-- Remove all entries stored under a key in an association list. -/
def eraseKey {α β : Type} [DecidableEq α] (a : α) (l : List (α × β)) : List (α × β) :=
  l.filter (fun p => decide (p.1 ≠ a))

/-- Store a value under a key in an association list, replacing any previous
entry for that key. -/
def insertKey {α β : Type} [DecidableEq α] (a : α) (b : β) (l : List (α × β)) : List (α × β) :=
  (a, b) :: eraseKey a l

/-- Whether the keys of an association list are pairwise distinct (the
invariant that a Rust `BTreeMap` enforces by construction). -/
def keysNodup {α β : Type} [DecidableEq α] (l : List (α × β)) : Bool :=
  decide (l.map Prod.fst).Nodup

/-- Keyed merge of two association lists: common keys are merged value-wise,
keys present on only one side retain their entry. -/
def mergeKeyed {α β : Type} [DecidableEq α] (m : β → β → β) (m1 m2 : List (α × β)) :
    List (α × β) :=
  m1.map (fun p =>
    match lookupKey m2 p.1 with
    | some w => (p.1, m p.2 w)
    | none => p) ++
    m2.filter (fun p => (lookupKey m1 p.1).isNone)

/-- Union of two lists viewed as sets (the embedding of `BTreeSet::union`):
the left operand followed by the members of the right operand not already
present in the left one. -/
def setUnion {α : Type} [DecidableEq α] (l1 l2 : List α) : List α :=
  l1 ++ l2.filter (fun x => decide (x ∉ l1))

/-! ## The abstract domain of values and memory objects

The value domain, the pointer domain and the abstract object list are part
of the repository but outside the excerpt; they are modelled from the
specification. -/

/-- Symbolic description of where a value originates: a register together
with a (possibly empty) dereference chain. -/
structure AbstractLocation where
  register : Variable
  path : List Int
deriving DecidableEq

/-- Build the abstract location of a register. -/
def AbstractLocation.from_var (v : Variable) : AbstractLocation :=
  ⟨v, []⟩

/-- The identity of a memory object: the function (term identifier) in which
it originated plus an abstract location. -/
structure AbstractIdentifier where
  time : Tid
  location : AbstractLocation
deriving DecidableEq

/-- An interval of machine integers of a given byte width. -/
structure Interval where
  width : Nat
  lo : Int
  hi : Int
deriving DecidableEq

/-- The join (convex hull) of two intervals. -/
def Interval.hull (a b : Interval) : Interval :=
  ⟨a.width, min a.lo b.lo, max a.hi b.hi⟩

/-- Modelled from the spec: the abstract value lattice `Data`
(`DataDomain` in the repository, not part of the excerpt).  A value is
either fully unknown (`Top` of a byte size), a numeric interval, or a set of
(object-identifier, offset-interval) pairs — a value may point into multiple
objects. -/
inductive Data where
  | Top : Nat → Data
  | Value : Interval → Data
  | Pointer : Nat → List (AbstractIdentifier × Interval) → Data
deriving DecidableEq

/-- Whether a `Data` value is the `Top` element. -/
def Data.is_top : Data → Bool
  | .Top _ => true
  | _ => false

/-- The byte size of a `Data` value. -/
def Data.bytesize : Data → Nat
  | .Top s => s
  | .Value i => i.width
  | .Pointer s _ => s

/-- The `Top` element of the value lattice for a given byte size
(`Data::new_top`). -/
def Data.new_top (size : Nat) : Data :=
  .Top size

/-- Modelled from the spec: the join of the value lattice.  `Top` absorbs,
numeric intervals join to their hull, pointer sets join target-wise, and a
join of a numeric value with a pointer loses all information. -/
def Data.merge : Data → Data → Data
  | .Top s, _ => .Top s
  | d, .Top _ => .Top d.bytesize
  | .Value i, .Value j => .Value (i.hull j)
  | .Pointer s m1, .Pointer _ m2 => .Pointer s (mergeKeyed Interval.hull m1 m2)
  | d, _ => .Top d.bytesize

/-- A pointer to a single target (`Data::from_target`). -/
def Data.from_target (target : AbstractIdentifier) (offset : Interval) : Data :=
  .Pointer offset.width [(target, offset)]

/-- The object identifiers referenced by a value (`Data::referenced_ids`):
the targets of a pointer value, nothing for other values. -/
def Data.referenced_ids : Data → List AbstractIdentifier
  | .Pointer _ m => m.map Prod.fst
  | _ => []

/-- Well-formedness of a `Data` value: pointer target maps have distinct keys
(the `BTreeMap` invariant of the repository's pointer domain). -/
def Data.wfb : Data → Bool
  | .Top _ => true
  | .Value _ => true
  | .Pointer _ m => keysNodup m

/-- The kind of a memory object. -/
inductive ObjectType where
  | Stack
  | Heap
deriving DecidableEq

/-- The freed-status of a memory object. -/
inductive ObjectStatus where
  | Live
  | Freed
  | Unknown
deriving DecidableEq

/-- Modelled from the spec: one memory object — byte-addressable content
(a sparse map from byte offsets to stored values), a kind and a freed-status. -/
structure AbstractObject where
  content : List (Int × Data)
  ty : Option ObjectType
  status : ObjectStatus
deriving DecidableEq

/-- Modelled from the spec: the object-level join.  Content cells are merged
value-wise and cells resolving to `Top` are dropped (the content map is
sparse); the kind is kept when both sides agree and forgotten otherwise; the
freed-status joins to `Unknown` on disagreement. -/
def AbstractObject.merge (a b : AbstractObject) : AbstractObject :=
  { content := (mergeKeyed Data.merge a.content b.content).filter (fun p => !p.2.is_top)
    ty := if a.ty = b.ty then a.ty else none
    status := if a.status = b.status then a.status else .Unknown }

/-- The object identifiers referenced from inside a memory object: the
pointer targets of all stored content cells. -/
def AbstractObject.referenced_ids (o : AbstractObject) : List AbstractIdentifier :=
  o.content.foldr (fun p acc => p.2.referenced_ids ++ acc) []

/-- Well-formedness of a memory object: distinct content keys, no stored
`Top` cells (the content map is sparse) and well-formed stored values. -/
def AbstractObject.wfb (o : AbstractObject) : Bool :=
  keysNodup o.content && o.content.all (fun p => !p.2.is_top && p.2.wfb)

/-- The list of all known memory objects, keyed by their identifier. -/
abbrev AbstractObjectList := List (AbstractIdentifier × AbstractObject)

/-- Modelled from the spec: an object list containing exactly one (empty,
live) stack object for the given stack identifier
(`AbstractObjectList::from_stack_id`). -/
def AbstractObjectList.from_stack_id (stack_id : AbstractIdentifier) (size : Nat) :
    AbstractObjectList :=
  [(stack_id, { content := [], ty := some .Stack, status := .Live })]

/-! ## The per-program-point state -/

/-- The state of a program at a specific point of time: the register map
(a variable absent from the map has value `Top`), the list of all known
memory objects, the identifier of the current stack frame, the known caller
stack frame identifiers, and the identifiers known to some caller. -/
structure State where
  register : List (Variable × Data)
  memory : AbstractObjectList
  stack_id : AbstractIdentifier
  caller_stack_ids : List AbstractIdentifier
  ids_known_to_caller : List AbstractIdentifier
deriving DecidableEq

/-- Well-formedness of a state: the register and memory maps have distinct
keys (the `BTreeMap` invariant), stored register values are well-formed and
sized like their register, and stored objects are well-formed. -/
def State.wfb (s : State) : Bool :=
  keysNodup s.register &&
    s.register.all (fun p => p.2.wfb && (p.2.bytesize == p.1.size)) &&
    keysNodup s.memory &&
    s.memory.all (fun p => p.2.wfb)

/-- Modelled from the spec: `State::get_register` — the data known about the
content of a register; a register absent from the map has value `Top`. -/
def State.get_register (s : State) (var : Variable) : Data :=
  (lookupKey s.register var).getD (Data.new_top var.size)

/-- Modelled from the spec: `State::set_register` — update the data known
about the content of a register, keeping the map sparse: setting a register
to `Top` removes its entry. -/
def State.set_register (s : State) (var : Variable) (value : Data) : State :=
  if value.is_top then
    { s with register := eraseKey var s.register }
  else
    { s with register := insertKey var value s.register }

/-- Create a new state that contains only one memory object corresponding to
the stack, with the stack offset set to zero (`State::new`). -/
def State.new (stack_register : Variable) (function_tid : Tid) : State :=
  let stack_id : AbstractIdentifier := ⟨function_tid, AbstractLocation.from_var stack_register⟩
  { register :=
      [(stack_register, Data.from_target stack_id ⟨stack_register.size, 0, 0⟩)]
    memory := AbstractObjectList.from_stack_id stack_id stack_register.size
    stack_id := stack_id
    caller_stack_ids := []
    ids_known_to_caller := [] }

/-- The register-map part of `State::merge`: for each register present in the
other operand that is also present in this operand, the value-domain join is
computed and kept only when it is not `Top`. -/
def mergeRegisters (self other : List (Variable × Data)) : List (Variable × Data) :=
  other.filterMap (fun p =>
    match lookupKey self p.1 with
    | some v =>
      let merged := v.merge p.2
      if merged.is_top then none else some (p.1, merged)
    | none => none)

/-- Merge two states (`State::merge`).  The Rust implementation asserts that
both operands share the same stack identifier and panics otherwise; the panic
is embedded as the `none` result.  Registers are joined sparsely, memory is
joined object-by-object, and the caller bookkeeping sets are unioned. -/
def State.merge (s other : State) : Option State :=
  if s.stack_id = other.stack_id then
    some
      { register := mergeRegisters s.register other.register
        memory := mergeKeyed AbstractObject.merge s.memory other.memory
        stack_id := s.stack_id
        caller_stack_ids := setUnion s.caller_stack_ids other.caller_stack_ids
        ids_known_to_caller := setUnion s.ids_known_to_caller other.ids_known_to_caller }
  else
    none

/-! ## Call/return lifecycle operations of the state -/

/-- The numeric value of a hexadecimal digit, if the character is one. -/
def hexDigit (c : Char) : Option Nat :=
  if '0' ≤ c ∧ c ≤ '9' then some (c.toNat - '0'.toNat)
  else if 'a' ≤ c ∧ c ≤ 'f' then some (c.toNat - 'a'.toNat + 10)
  else if 'A' ≤ c ∧ c ≤ 'F' then some (c.toNat - 'A'.toNat + 10)
  else none

/-- Modelled from the spec: the standard-library hexadecimal parse
`u64::from_str_radix(s, 16)` used by `set_mips_link_register`.  An optional
sign is allowed (a minus sign only for the value zero), the digit sequence
must be nonempty and consist of hexadecimal digits, and the value must fit
into 64 bits. -/
def u64_from_str_radix_16 (s : String) : Option Nat :=
  let parse : Bool → List Char → Option Nat := fun negative digits =>
    if digits.isEmpty then none
    else
      (digits.foldl
        (fun acc c => acc.bind (fun n => (hexDigit c).map (fun d => 16 * n + d)))
        (some 0)).bind
        (fun n =>
          if 2 ^ 64 ≤ n then none
          else if negative ∧ n ≠ 0 then none
          else some n)
  match s.data with
  | '+' :: rest => parse false rest
  | '-' :: rest => parse true rest
  | rest => parse false rest

/-- Set the MIPS link register `t9` to the address of the callee's term
identifier (`State::set_mips_link_register`).  The address string is parsed
as a hexadecimal literal; on failure the error is returned and the state is
untouched, on success the non-temporary register `t9` of pointer size is set
to the parsed address resized (unsigned) to the pointer size. -/
def State.set_mips_link_register (s : State) (callee_tid : Tid)
    (generic_pointer_size : Nat) : State × Option String :=
  let link_register : Variable := ⟨"t9", generic_pointer_size, false⟩
  match u64_from_str_radix_16 callee_tid.address with
  | none => (s, some "Could not parse the callee address")
  | some n =>
    let resized : Int := ((n % 2 ^ (8 * generic_pointer_size) : Nat) : Int)
    (s.set_register link_register (.Value ⟨generic_pointer_size, resized, resized⟩), none)

/-- Clear all non-callee-saved registers from the state
(`State::clear_non_callee_saved_register`): keep exactly the callee-saved
registers whose current value is not `Top`. -/
def State.clear_non_callee_saved_register (s : State) (callee_saved_register : List Variable) :
    State :=
  { s with
    register :=
      callee_saved_register.filterMap (fun var =>
        let value := s.get_register var
        if value.is_top then none else some (var, value)) }

/-- The runtime memory image of the analyzed binary (read-only; the state
operations modelled here only pass it through). -/
structure RuntimeMemoryImage where
  base_address : Nat
deriving DecidableEq

/-- Modelled from the spec: `State::write_to_address` — a single logical
write of a value to the location described by an address expression.  The
address must evaluate to a constant offset from the current stack register
(the register recorded in the stack identifier); the write then updates the
current stack object's (sparse) content at that offset, writing `Top`
removes the cell.  A non-evaluable address or a missing stack object is an
error, and a failing write leaves the state unchanged. -/
def State.write_to_address (s : State) (address : Expression) (value : Data)
    (global_memory : RuntimeMemoryImage) : Except String State :=
  match Arg.eval_stack_offset_expression address s.stack_id.location.register with
  | .error e => .error e
  | .ok offset =>
    match lookupKey s.memory s.stack_id with
    | none => .error "The stack object is missing"
    | some obj =>
      let off : Int := (offset.value : Int)
      let newContent :=
        if value.is_top then eraseKey off obj.content else insertKey off value obj.content
      .ok { s with memory := insertKey s.stack_id { obj with content := newContent } s.memory }

/-- Mark the parameter values of an extern function call that are passed on
the stack as unknown data (`State::clear_stack_parameter`).  Every stack
parameter is overwritten with `Top`; register parameters are skipped.  The
loop keeps only the error of the last failing write in its result log and
never aborts early. -/
def State.clear_stack_parameter (s : State) (ext_call : ExternSymbol)
    (global_memory : RuntimeMemoryImage) : State × Option String :=
  ext_call.parameters.foldl
    (fun acc arg =>
      match arg with
      | .Register _ _ => acc
      | .Stack address size _ =>
        match acc.1.write_to_address address (Data.new_top size) global_memory with
        | .ok st => (st, acc.2)
        | .error e => (acc.1, some e))
    (s, none)

/-! ## Garbage collection of unreferenced objects -/

/-- All identifiers referenced by the values currently stored in registers. -/
def registerRefIds (register : List (Variable × Data)) : Finset AbstractIdentifier :=
  register.foldr (fun p acc => p.2.referenced_ids.toFinset ∪ acc) ∅

/-- All identifiers referenced from inside the objects whose identifier
belongs to the given set. -/
def objectRefIds (memory : AbstractObjectList) (ids : Finset AbstractIdentifier) :
    Finset AbstractIdentifier :=
  memory.foldr
    (fun p acc => if p.1 ∈ ids then p.2.referenced_ids.toFinset ∪ acc else acc) ∅

/-- One step of the reachability closure: add every identifier referenced
from inside an already-reached object. -/
def reachStep (memory : AbstractObjectList) (ids : Finset AbstractIdentifier) :
    Finset AbstractIdentifier :=
  ids ∪ objectRefIds memory ids

/-- All identifiers referenced from inside any memory object (the universe
from which the closure can draw new identifiers). -/
def memRefUniverse (memory : AbstractObjectList) : Finset AbstractIdentifier :=
  memory.foldr (fun p acc => p.2.referenced_ids.toFinset ∪ acc) ∅

/-- Modelled from the spec: `State::add_directly_reachable_ids_to_id_set` —
the worklist computation closing a set of identifiers under the pointers
stored inside already-reached memory objects.  The worklist loop is embedded
as an iteration of the closure step that is long enough to saturate. -/
def State.add_directly_reachable_ids_to_id_set (s : State)
    (ids : Finset AbstractIdentifier) : Finset AbstractIdentifier :=
  (reachStep s.memory)^[(memRefUniverse s.memory).card + 1] ids

/-- Modelled from the spec: `AbstractObjectList::remove_unused_objects` —
keep exactly the objects whose identifier belongs to the given set. -/
def AbstractObjectList.remove_unused_objects (memory : AbstractObjectList)
    (ids : Finset AbstractIdentifier) : AbstractObjectList :=
  memory.filter (fun p => decide (p.1 ∈ ids))

/-- The seed of the reachability closure of `State::remove_unreferenced_objects`:
all identifiers referenced by register values, the current stack identifier,
all caller stack identifiers and all identifiers known to some caller. -/
def State.referencedIdsSeed (s : State) : Finset AbstractIdentifier :=
  registerRefIds s.register ∪
    ({s.stack_id} ∪ s.caller_stack_ids.toFinset ∪ s.ids_known_to_caller.toFinset)

/-- Remove all objects that can no longer be reached by any known pointer
(`State::remove_unreferenced_objects`): collect the referenced identifiers
from the registers and the bookkeeping sets, close the set under pointers
stored inside reached objects, and drop every object outside the closure. -/
def State.remove_unreferenced_objects (s : State) : State :=
  let referenced_ids := s.referencedIdsSeed
  let referenced_ids := s.add_directly_reachable_ids_to_id_set referenced_ids
  { s with memory := AbstractObjectList.remove_unused_objects s.memory referenced_ids }

/-- The identifiers reachable in a state: from a register value, the current
stack identifier, a caller stack identifier, an identifier known to a
caller, or through a pointer stored inside an already-reachable object.
This is the specification-side closure that `remove_unreferenced_objects`
must retain. -/
inductive Reaches (s : State) : AbstractIdentifier → Prop where
  | from_register (v : Variable) (d : Data) (i : AbstractIdentifier) :
      (v, d) ∈ s.register → i ∈ d.referenced_ids → Reaches s i
  | from_stack : Reaches s s.stack_id
  | from_caller (i : AbstractIdentifier) : i ∈ s.caller_stack_ids → Reaches s i
  | from_known (i : AbstractIdentifier) : i ∈ s.ids_known_to_caller → Reaches s i
  | through_object (i j : AbstractIdentifier) (o : AbstractObject) :
      Reaches s i → (i, o) ∈ s.memory → j ∈ o.referenced_ids → Reaches s j

/-! ## Callee-saved register handling at call returns -/

/-- Restore the content of callee-saved registers from the caller state with
the exception of the stack register (`State::restore_callee_saved_register`). -/
def State.restore_callee_saved_register (s : State) (caller_state : State)
    (cconv : CallingConvention) (stack_register : Variable) : State :=
  (cconv.callee_saved_register.filter (fun reg => decide (reg ≠ stack_register))).foldl
    (fun st reg => st.set_register reg (caller_state.get_register reg)) s

/-- Remove all knowledge about the contents of callee-saved registers from
the state (`State::remove_callee_saved_register`): every register of the
calling convention's callee-saved list is removed from the register map. -/
def State.remove_callee_saved_register (s : State) (cconv : CallingConvention) : State :=
  { s with
    register := cconv.callee_saved_register.foldl (fun m reg => eraseKey reg m) s.register }

/-! ## The variadic-argument resolver

The resolver functions are part of the repository but outside the excerpt
(only their tests are); they are modelled from the specification. -/

/-- Sizes of the primitive data types of the analyzed architecture. -/
structure DatatypeProperties where
  char_size : Nat
  double_size : Nat
  float_size : Nat
  integer_size : Nat
  pointer_size : Nat
deriving DecidableEq

/-- Modelled from the spec: classification of a conversion-specifier token
(the length modifiers followed by the conversion character) into a data-type
class: pointer class for `s`/`p`, char class for `c`, integer class for
`d`/`x` and the integer length-modifier variants such as `lli`, double class
for `f` and the length-modified float forms. -/
def Datatype.from_string (s : String) : Datatype :=
  if s = "c" then .Char
  else if s ∈ ["d", "i", "u", "o", "x", "X", "hd", "hi", "hu", "hx",
      "ld", "li", "lu", "lx", "lld", "lli", "llu", "llx", "zd", "zi", "zu"] then .Integer
  else if s ∈ ["s", "p"] then .Pointer
  else if s ∈ ["f", "F", "e", "E", "g", "G", "a", "A",
      "lf", "le", "lg", "Lf", "Le", "Lg"] then .Double
  else .Unknown

/-- The byte size assigned to a data-type class: pointer class values are
sized by the architecture pointer size, char and integer class values by the
integer size, double class values by the double size. -/
def Datatype.parameter_size (dt : Datatype) (properties : DatatypeProperties) : Nat :=
  match dt with
  | .Char => properties.integer_size
  | .Integer => properties.integer_size
  | .Pointer => properties.pointer_size
  | .Double => properties.double_size
  | .Unknown => properties.pointer_size

/-- Whether a character terminates a conversion specifier. -/
def isConversionChar (c : Char) : Bool :=
  c ∈ ['d', 'i', 'u', 'o', 'x', 'X', 'c', 's', 'p', 'f', 'F', 'e', 'E', 'g', 'G', 'a', 'A']

/-- Whether a character is a length modifier of a conversion specifier. -/
def isLengthModifier (c : Char) : Bool :=
  c ∈ ['h', 'l', 'L', 'z', 'j', 't', 'q']

/-- Whether a character is a flag, width or precision character of a
conversion specifier (consumed but not part of the classified token). -/
def isFlagOrWidthChar (c : Char) : Bool :=
  c.isDigit || c ∈ ['-', '+', ' ', '#', '.', '*']

/-- The scanner state of the format-string parser: outside a conversion
specifier, or inside one with the length modifiers collected so far. -/
inductive FmtScanState where
  | normal
  | spec (length_mods : List Char)
deriving DecidableEq

/-- One step of the format-string scanner.  A `%` opens a specifier; inside
one, a second immediate `%` is a literal percent sign, a conversion
character emits the collected token, length modifiers are collected, flag
and width characters are skipped, and any other character abandons the
specifier. -/
def fmtStep (acc : FmtScanState × List String) (c : Char) : FmtScanState × List String :=
  match acc.1 with
  | .normal => if c = '%' then (.spec [], acc.2) else (.normal, acc.2)
  | .spec mods =>
    if c = '%' && mods.isEmpty then (.normal, acc.2)
    else if isConversionChar c then (.normal, acc.2 ++ [String.mk (mods ++ [c])])
    else if isLengthModifier c then (.spec (mods ++ [c]), acc.2)
    else if isFlagOrWidthChar c then (.spec mods, acc.2)
    else (.normal, acc.2)

/-- Modelled from the spec: `parse_format_string_parameters` — scan the
format string left to right for `%`-introduced conversion specifiers,
classify each into a data-type class and size it by the architecture's type
sizes.  A literal `%%` is not a conversion, and a trailing incomplete `%` is
ignored. -/
def parse_format_string_parameters (format_string : String)
    (datatype_properties : DatatypeProperties) : List (Datatype × Nat) :=
  (format_string.data.foldl fmtStep (.normal, [])).2.map (fun tok =>
    let dt := Datatype.from_string tok
    (dt, dt.parameter_size datatype_properties))

/-- The byte size of the value an expression evaluates to. -/
def Expression.bytesize : Expression → Nat
  | .Var v => v.size
  | .Const b => b.width / 8
  | .BinOp _ lhs _ => lhs.bytesize
  | .UnOp _ a => a.bytesize
  | .Cast _ size _ => size
  | .Unknown _ size => size

/-- Modelled from the spec: `Expression::plus_const` — add a constant to an
expression; adding zero returns the expression unchanged, otherwise the
constant is encoded as a two's-complement bitvector of the expression's
width. -/
def Expression.plus_const (e : Expression) (value : Int) : Expression :=
  if value = 0 then e
  else .BinOp .IntAdd e (.Const ⟨8 * e.bytesize, (value.emod (2 ^ (8 * e.bytesize))).toNat⟩)

/-- Modelled from the spec: `create_stack_arg` — a stack argument slot at a
constant offset from the stack register, tagged with its size and data
type. -/
def create_stack_arg (size : Nat) (stack_offset : Int) (data_type : Datatype)
    (stack_register : Variable) : Arg :=
  .Stack ((Expression.Var stack_register).plus_const stack_offset) size (some data_type)

/-- Modelled from the spec: `calculate_parameter_locations` — assign each
variadic value a parameter location.  The first `format_string_index + 1`
integer parameter registers are treated as already consumed by the fixed
parameters; integer-class values (integer, pointer, char) take the next
unused integer parameter register and double-class values the next unused
float parameter register — the two register files are independent.  A value
whose register file is exhausted is passed on the stack at successive
offsets, each slot sized by the value's own byte size; the first stack slot
begins at the first free slot (on x86 architectures, directly above the
stored return address, i.e. at stack register + pointer size). -/
def calculate_parameter_locations (parameters : List (Datatype × Nat))
    (calling_convention : CallingConvention) (format_string_index : Nat)
    (stack_register : Variable) (cpu_arch : String) : List Arg :=
  let init_int_regs :=
    calling_convention.integer_parameter_register.drop (format_string_index + 1)
  let init_offset : Int :=
    if cpu_arch ∈ ["x86", "x86_32", "x86_64"] then (stack_register.size : Int) else 0
  (parameters.foldl
    (fun acc p =>
      let (args, int_regs, float_regs, offset) := acc
      match p.1 with
      | .Double =>
        match float_regs with
        | f :: rest => (args ++ [Arg.Register f (some p.1)], int_regs, rest, offset)
        | [] =>
          (args ++ [create_stack_arg p.2 offset p.1 stack_register],
            int_regs, [], offset + (p.2 : Int))
      | dt =>
        match int_regs with
        | r :: rest => (args ++ [Arg.Register (.Var r) (some dt)], rest, float_regs, offset)
        | [] =>
          (args ++ [create_stack_arg p.2 offset dt stack_register],
            [], float_regs, offset + (p.2 : Int)))
    ([], init_int_regs, calling_convention.float_parameter_register, init_offset)).1

/-! ## Declarative descriptions used to state the claims -/

/-- Declarative description of the state effect of clearing the stack
parameters: every stack parameter's `Top`-write is attempted in order, a
failing write leaves the state unchanged and the iteration continues;
register parameters never touch the state. -/
def applyStackWrites (s : State) (args : List Arg) (gm : RuntimeMemoryImage) : State :=
  match args with
  | [] => s
  | .Register _ _ :: rest => applyStackWrites s rest gm
  | .Stack address size _ :: rest =>
    match s.write_to_address address (Data.new_top size) gm with
    | .ok st => applyStackWrites st rest gm
    | .error _ => applyStackWrites s rest gm

/-- The errors of the failing stack-parameter writes, in the order in which
the writes are attempted (each write runs on the state produced by all
preceding successful writes). -/
def stackWriteErrors (s : State) (args : List Arg) (gm : RuntimeMemoryImage) : List String :=
  match args with
  | [] => []
  | .Register _ _ :: rest => stackWriteErrors s rest gm
  | .Stack address size _ :: rest =>
    match s.write_to_address address (Data.new_top size) gm with
    | .ok st => stackWriteErrors st rest gm
    | .error e => e :: stackWriteErrors s rest gm

/-- Whether every parameter of the list is a register parameter. -/
def allRegisterArgs (args : List Arg) : Bool :=
  args.all (fun a =>
    match a with
    | .Register _ _ => true
    | .Stack _ _ _ => false)

/-! ## Concrete fixtures used by witnesses and counterexamples -/

/-- The x86-64 stack register. -/
def rspVar : Variable := ⟨"RSP", 8, false⟩

/-- The x86-64 register RDI. -/
def rdiVar : Variable := ⟨"RDI", 8, false⟩

/-- The x86-64 register RSI. -/
def rsiVar : Variable := ⟨"RSI", 8, false⟩

/-- The x86-64 register R8. -/
def r8Var : Variable := ⟨"R8", 8, false⟩

/-- The x86-64 register R9. -/
def r9Var : Variable := ⟨"R9", 8, false⟩

/-- The x86-64 register RBP. -/
def rbpVar : Variable := ⟨"RBP", 8, false⟩

/-- The x86-64 register RAX. -/
def raxVar : Variable := ⟨"RAX", 8, false⟩

/-- The x86-64 float register XMM0. -/
def xmm0Var : Variable := ⟨"XMM0", 16, false⟩

/-- A function term identifier with a parsable hexadecimal address. -/
def tidFunc : Tid := ⟨"func", "00001000"⟩

/-- A fresh state of the mock function, as produced at function entry. -/
def stateS0 : State := State.new rspVar tidFunc

/-- The calling convention of the parameter-location test: integer parameter
registers RDI, RSI, R8, R9 and the float parameter register XMM0. -/
def cconvX64 : CallingConvention :=
  { name := "__stdcall"
    integer_parameter_register := [rdiVar, rsiVar, r8Var, r9Var]
    float_parameter_register := [.Var xmm0Var]
    integer_return_register := [raxVar]
    float_return_register := []
    callee_saved_register := [rbpVar] }

/-- A calling convention whose callee-saved list contains the stack register. -/
def cconvWithStackRegister : CallingConvention :=
  { name := "__stdcall"
    integer_parameter_register := [rdiVar]
    float_parameter_register := []
    integer_return_register := [raxVar]
    float_return_register := []
    callee_saved_register := [rspVar, rbpVar] }

/-- An extern symbol whose single parameter is passed on the stack. -/
def stackParamSymbol : ExternSymbol :=
  { tid := ⟨"mock_symbol", "UNKNOWN"⟩
    addresses := ["UNKNOWN"]
    name := "mock_symbol"
    calling_convention := some "__stdcall"
    parameters := [.Stack (.Var rspVar) 8 none]
    return_values := [.Register (.Var raxVar) none]
    no_return := false
    has_var_args := false }

/-- A caller state that knows a concrete value for RBP. -/
def callerState : State := stateS0.set_register rbpVar (.Value ⟨8, 5, 5⟩)

/-- An extern symbol whose parameters are all passed in registers. -/
def regOnlySymbol : ExternSymbol :=
  { tid := ⟨"reg_symbol", "UNKNOWN"⟩
    addresses := ["UNKNOWN"]
    name := "reg_symbol"
    calling_convention := some "__stdcall"
    parameters := [.Register (.Var rdiVar) none, .Register (.Var rsiVar) none]
    return_values := [.Register (.Var raxVar) none]
    no_return := false
    has_var_args := false }

/-- The last element of an error list if there is one, else a fallback log
value (the shape of the running result log of `clear_stack_parameter`). -/
def lastOr (l : List String) (log : Option String) : Option String :=
  match l.getLast? with
  | some e => some e
  | none => log

/-- The stack identifier of a caller frame of the mock function. -/
def callerId : AbstractIdentifier := ⟨⟨"caller", "00000500"⟩, AbstractLocation.from_var rspVar⟩

/-- A state that additionally knows a caller stack frame and its (otherwise
unreachable) memory object. -/
def stateWithCaller : State :=
  { stateS0 with
    caller_stack_ids := [callerId]
    memory := stateS0.memory ++ [(callerId, ⟨[], some .Stack, .Live⟩)] }

/-! ## Association-list lemmas -/

theorem lookupKey_eraseKey_self {α β : Type} [DecidableEq α] (a : α) (l : List (α × β)) :
    lookupKey (eraseKey a l) a = none := by
  induction l with
  | nil => rfl
  | cons p rest ih =>
    by_cases hp : p.1 = a
    · simpa [eraseKey, List.filter, hp] using ih
    · simpa [eraseKey, List.filter, hp, lookupKey] using ih

theorem eraseKey_cons_of_eq {α β : Type} [DecidableEq α] {a : α} {p : α × β}
    (rest : List (α × β)) (hp : p.1 = a) : eraseKey a (p :: rest) = eraseKey a rest := by
  simp [eraseKey, List.filter, hp]

theorem eraseKey_cons_of_ne {α β : Type} [DecidableEq α] {a : α} {p : α × β}
    (rest : List (α × β)) (hp : ¬p.1 = a) :
    eraseKey a (p :: rest) = p :: eraseKey a rest := by
  simp [eraseKey, List.filter, hp]

theorem lookupKey_eraseKey_ne {α β : Type} [DecidableEq α] {a k : α} (l : List (α × β))
    (h : a ≠ k) : lookupKey (eraseKey a l) k = lookupKey l k := by
  induction l with
  | nil => rfl
  | cons p rest ih =>
    obtain ⟨x, v⟩ := p
    by_cases hp : x = a
    · have hk : ¬x = k := by rw [hp]; exact h
      rw [eraseKey_cons_of_eq rest hp, ih]
      simp [lookupKey, hk]
    · rw [eraseKey_cons_of_ne rest hp]
      by_cases hk : x = k <;> simp [lookupKey, hk, ih]

theorem lookupKey_insertKey_self {α β : Type} [DecidableEq α] (a : α) (b : β)
    (l : List (α × β)) : lookupKey (insertKey a b l) a = some b := by
  simp [insertKey, lookupKey]

theorem lookupKey_insertKey_ne {α β : Type} [DecidableEq α] {a k : α} (b : β)
    (l : List (α × β)) (h : a ≠ k) : lookupKey (insertKey a b l) k = lookupKey l k := by
  simp only [insertKey, lookupKey, h, if_neg]
  exact lookupKey_eraseKey_ne l h

theorem lookupKey_mem {α β : Type} [DecidableEq α] {l : List (α × β)} {a : α} {b : β}
    (h : lookupKey l a = some b) : (a, b) ∈ l := by
  induction l with
  | nil => simp [lookupKey] at h
  | cons p rest ih =>
    obtain ⟨x, v⟩ := p
    by_cases hp : x = a
    · simp only [lookupKey, hp, if_pos, Option.some.injEq] at h
      subst hp
      subst h
      exact List.mem_cons_self _ _
    · simp only [lookupKey, hp, if_neg, not_false_iff] at h
      exact List.mem_cons_of_mem _ (ih h)

theorem lookupKey_self_of_nodup {α β : Type} [DecidableEq α] {l : List (α × β)}
    (hn : keysNodup l = true) : ∀ p ∈ l, lookupKey l p.1 = some p.2 := by
  induction l with
  | nil => intro p hp; simp at hp
  | cons q rest ih =>
    have hn' : (q.1 ∉ rest.map Prod.fst) ∧ keysNodup rest = true := by
      simpa [keysNodup, List.nodup_cons] using hn
    intro p hp
    rcases List.mem_cons.mp hp with rfl | hp'
    · simp [lookupKey]
    · have hne : q.1 ≠ p.1 := by
        intro hEq
        exact hn'.1 (hEq ▸ List.mem_map_of_mem Prod.fst hp')
      simp only [lookupKey, hne, if_neg, not_false_iff]
      exact ih hn'.2 p hp'

theorem list_map_self {α : Type} {f : α → α} :
    ∀ l : List α, (∀ a ∈ l, f a = a) → l.map f = l := by
  intro l
  induction l with
  | nil => intro _; rfl
  | cons a rest ih =>
    intro h
    simp only [List.map_cons, h a (List.mem_cons_self a rest),
      ih (fun x hx => h x (List.mem_cons_of_mem a hx))]

theorem filterMap_eq_filter_of {α : Type} {f : α → Option α} {q : α → Bool}
    (l : List α) (hf : ∀ a ∈ l, f a = if q a then some a else none) :
    l.filterMap f = l.filter q := by
  induction l with
  | nil => rfl
  | cons a rest ih =>
    have ha := hf a (List.mem_cons_self a rest)
    have ih' := ih (fun x hx => hf x (List.mem_cons_of_mem a hx))
    by_cases hq : q a
    · simp [List.filterMap_cons, List.filter, ha, hq, ih']
    · simp [List.filterMap_cons, List.filter, ha, hq, ih']

theorem mergeKeyed_self {α β : Type} [DecidableEq α] (m : β → β → β) (l : List (α × β))
    (hn : keysNodup l = true) (hidem : ∀ p ∈ l, m p.2 p.2 = p.2) :
    mergeKeyed m l l = l := by
  unfold mergeKeyed
  have hmap : ∀ p ∈ l,
      (match lookupKey l p.1 with
        | some w => (p.1, m p.2 w)
        | none => p) = p := by
    intro p hp
    rw [lookupKey_self_of_nodup hn p hp]
    simp [hidem p hp]
  have hfilter : l.filter (fun p => (lookupKey l p.1).isNone) = [] := by
    rw [List.filter_eq_nil_iff]
    intro p hp
    rw [lookupKey_self_of_nodup hn p hp]
    simp
  rw [list_map_self l hmap, hfilter, List.append_nil]

theorem setUnion_self {α : Type} [DecidableEq α] (l : List α) : setUnion l l = l := by
  unfold setUnion
  have : l.filter (fun x => decide (x ∉ l)) = [] := by
    rw [List.filter_eq_nil_iff]
    intro a ha
    simp [ha]
  rw [this, List.append_nil]

/-! ## Idempotence of the value and object joins -/

theorem Interval.hull_self (i : Interval) : i.hull i = i := by
  simp [Interval.hull]

theorem data_merge_self (d : Data) (hw : d.wfb = true) : d.merge d = d := by
  cases d with
  | Top s => rfl
  | Value i => simp [Data.merge, Interval.hull_self]
  | Pointer s m =>
    simp only [Data.merge]
    rw [mergeKeyed_self Interval.hull m (by simpa [Data.wfb] using hw)
      (fun p _ => Interval.hull_self p.2)]

theorem object_merge_self (o : AbstractObject) (hw : o.wfb = true) :
    o.merge o = o := by
  have hn : keysNodup o.content = true := by
    simp only [AbstractObject.wfb, Bool.and_eq_true] at hw
    exact hw.1
  have hcells : ∀ p ∈ o.content, p.2.is_top = false ∧ p.2.wfb = true := by
    intro p hp
    simp only [AbstractObject.wfb, Bool.and_eq_true, List.all_eq_true] at hw
    have := hw.2 p hp
    simp only [Bool.and_eq_true, Bool.not_eq_true'] at this
    exact this
  have hcontent : (mergeKeyed Data.merge o.content o.content).filter
      (fun p => !p.2.is_top) = o.content := by
    rw [mergeKeyed_self Data.merge o.content hn (fun p hp => data_merge_self p.2 (hcells p hp).2)]
    rw [List.filter_eq_self]
    intro p hp
    simp [(hcells p hp).1]
  cases o with
  | mk content ty status =>
    simp only [AbstractObject.merge] at *
    simp [hcontent]

/-! ## Claim theorems -/

/-- Claim C1: for every pair of states `a` and `b`, `State::merge(a, b)`
fails with a hard invariant-check failure (embedded: the result is `none`,
modelling the Rust assertion panic) whenever `a.stack_id` differs from
`b.stack_id`, and only proceeds (returns `some` merged state) when the two
stack identifiers are equal. -/
theorem claim_C1_merge_requires_equal_stack_ids (a b : State) :
    State.merge a b = none ↔ a.stack_id ≠ b.stack_id := by
  unfold State.merge
  by_cases h : a.stack_id = b.stack_id <;> simp [h]

/-- Claim C6: `Arg::eval_stack_offset` returns an error for every register
argument; for a stack argument it evaluates the address expression
recursively: a bare reference to the stack register evaluates to the zero
bitvector of the register's width, a constant evaluates to itself, a binary
or unary operator application evaluates its operands recursively and applies
the operator in the bitvector domain, and every other expression shape
(including a variable other than the stack register) yields an error. -/
theorem claim_C6_eval_stack_offset (stack_register : Variable) :
    (∀ (e : Expression) (dt : Option Datatype),
      (Arg.Register e dt).eval_stack_offset stack_register =
        .error "The argument is not a stack argument.") ∧
    (∀ (address : Expression) (size : Nat) (dt : Option Datatype),
      (Arg.Stack address size dt).eval_stack_offset stack_register =
        Arg.eval_stack_offset_expression address stack_register) ∧
    (Arg.eval_stack_offset_expression (.Var stack_register) stack_register =
      .ok (Bitvector.zero (8 * stack_register.size))) ∧
    (∀ v : Variable, v ≠ stack_register →
      Arg.eval_stack_offset_expression (.Var v) stack_register =
        .error "Input register is not the stack register") ∧
    (∀ b : Bitvector,
      Arg.eval_stack_offset_expression (.Const b) stack_register = .ok b) ∧
    (∀ (op : BinOpType) (lhs rhs : Expression),
      Arg.eval_stack_offset_expression (.BinOp op lhs rhs) stack_register =
        (Arg.eval_stack_offset_expression lhs stack_register).bind (fun l =>
          (Arg.eval_stack_offset_expression rhs stack_register).bind (fun r =>
            l.bin_op op r))) ∧
    (∀ (op : UnOpType) (a : Expression),
      Arg.eval_stack_offset_expression (.UnOp op a) stack_register =
        (Arg.eval_stack_offset_expression a stack_register).bind (fun x => x.un_op op)) ∧
    (∀ e : Expression, e.unsupported_shape = true →
      Arg.eval_stack_offset_expression e stack_register =
        .error "Expression type not supported for argument values") := by
  refine ⟨fun e dt => rfl, fun a sz dt => rfl, ?_, ?_, fun b => rfl, ?_, ?_, ?_⟩
  · simp [Arg.eval_stack_offset_expression]
  · intro v hv
    simp [Arg.eval_stack_offset_expression, hv]
  · intro op lhs rhs
    simp only [Arg.eval_stack_offset_expression]
    cases Arg.eval_stack_offset_expression lhs stack_register <;>
      cases Arg.eval_stack_offset_expression rhs stack_register <;>
        rfl
  · intro op a
    simp only [Arg.eval_stack_offset_expression]
    cases Arg.eval_stack_offset_expression a stack_register <;> rfl
  · intro e he
    cases e <;> simp [Expression.unsupported_shape] at he ⊢ <;>
      rfl

/-- Witness for claim C6 at concrete inputs: a register argument is
rejected, a non-stack register is rejected, and an unsupported expression
shape is rejected. -/
theorem claim_C6_eval_stack_offset_witness :
    (Arg.Register (.Var rdiVar) none).eval_stack_offset rspVar =
        .error "The argument is not a stack argument." ∧
    Arg.eval_stack_offset_expression (.Var rdiVar) rspVar =
        .error "Input register is not the stack register" ∧
    Arg.eval_stack_offset_expression (.Unknown "input" 8) rspVar =
        .error "Expression type not supported for argument values" := by
  have h := claim_C6_eval_stack_offset rspVar
  exact ⟨h.1 (.Var rdiVar) none, h.2.2.2.1 rdiVar (by decide),
    h.2.2.2.2.2.2.2 (.Unknown "input" 8) (by decide)⟩

/-- Counterexample to claim C8 as stated: the extern symbol whose single
parameter is passed on the stack still gets an `ok` result from
`get_unique_parameter`, although the parameter is not a plain register. -/
theorem claim_C8_counterexample :
    stackParamSymbol.parameters = [.Stack (.Var rspVar) 8 none] ∧
    stackParamSymbol.get_unique_parameter = .ok (.Stack (.Var rspVar) 8 none) :=
  ⟨rfl, rfl⟩

/-- Claim C8 as amended: `get_unique_return_register` returns `ok` exactly
when there is exactly one return value and it is a plain register (a bare
variable expression); `get_unique_parameter` returns `ok` exactly when there
is exactly one parameter, regardless of the parameter's shape. -/
theorem claim_C8_unique_argument_amended (s : ExternSymbol) :
    (∀ v : Variable, s.get_unique_return_register = .ok v ↔
      ∃ dt : Option Datatype, s.return_values = [Arg.Register (.Var v) dt]) ∧
    (∀ a : Arg, s.get_unique_parameter = .ok a ↔ s.parameters = [a]) := by
  constructor
  · intro v
    unfold ExternSymbol.get_unique_return_register
    rcases hrv : s.return_values with _ | ⟨a, _ | ⟨b, l⟩⟩
    · simp
    · cases a with
      | Register e dt =>
        cases e <;> simp_all
      | Stack e sz dt => simp
    · simp
  · intro a
    unfold ExternSymbol.get_unique_parameter
    rcases hp : s.parameters with _ | ⟨b, _ | ⟨c, l⟩⟩ <;> simp

/-- Claim C4: with integer parameter registers RDI, RSI, R8, R9, float
parameter register XMM0 and format-string index 1, the variadic types
Integer/8, Double/16, Pointer/8 are assigned the registers R8, XMM0 and R9
(the double does not consume an integer register), and appending one more
Pointer/8 additionally yields a stack argument at stack register + 8 of size
8 tagged Pointer. -/
theorem claim_C4_calculate_parameter_locations :
    calculate_parameter_locations [(.Integer, 8), (.Double, 16), (.Pointer, 8)]
        cconvX64 1 rspVar "x86_64" =
      [Arg.Register (.Var r8Var) (some .Integer),
        Arg.Register (.Var xmm0Var) (some .Double),
        Arg.Register (.Var r9Var) (some .Pointer)] ∧
    calculate_parameter_locations [(.Integer, 8), (.Double, 16), (.Pointer, 8), (.Pointer, 8)]
        cconvX64 1 rspVar "x86_64" =
      [Arg.Register (.Var r8Var) (some .Integer),
        Arg.Register (.Var xmm0Var) (some .Double),
        Arg.Register (.Var r9Var) (some .Pointer),
        Arg.Stack (.BinOp .IntAdd (.Var rspVar) (.Const ⟨64, 8⟩)) 8 (some .Pointer)] := by
  constructor <;> rfl

/-- Claim C5: the format string with three string conversions parses to
exactly three pointer-class conversions sized by the architecture pointer
size, and the device-name format string parses to a char-class conversion
followed by a d-class conversion, both sized by the integer size, in
left-to-right order. -/
theorem claim_C5_parse_format_string (props : DatatypeProperties) :
    parse_format_string_parameters "%s \"%s\" %s" props =
      [(.Pointer, props.pointer_size), (.Pointer, props.pointer_size),
        (.Pointer, props.pointer_size)] ∧
    parse_format_string_parameters "/dev/sd%c%d" props =
      [(.Char, props.integer_size), (.Integer, props.integer_size)] := by
  constructor <;> rfl

/-! ## Register access lemmas -/

theorem get_register_set_register_other (s : State) (v : Variable) (d : Data)
    {r : Variable} (h : v ≠ r) :
    (s.set_register v d).get_register r = s.get_register r := by
  unfold State.set_register State.get_register
  by_cases ht : d.is_top <;>
    simp only [ht, if_pos, if_neg, Bool.false_eq_true, not_false_iff,
      lookupKey_insertKey_ne d s.register h, lookupKey_eraseKey_ne s.register h]

theorem set_register_preserves_memory (s : State) (v : Variable) (d : Data) :
    (s.set_register v d).memory = s.memory ∧
    (s.set_register v d).stack_id = s.stack_id ∧
    (s.set_register v d).caller_stack_ids = s.caller_stack_ids ∧
    (s.set_register v d).ids_known_to_caller = s.ids_known_to_caller := by
  unfold State.set_register
  by_cases ht : d.is_top <;> simp [ht]

theorem wfb_register_sized (s : State) (hw : s.wfb = true) {r : Variable} {v : Data}
    (h : lookupKey s.register r = some v) : v.wfb = true ∧ v.bytesize = r.size := by
  have hm := lookupKey_mem h
  simp only [State.wfb, Bool.and_eq_true, List.all_eq_true] at hw
  have := hw.1.1.2 (r, v) hm
  simp only [Bool.and_eq_true, beq_iff_eq] at this
  exact this

theorem get_register_set_register_self (s caller : State) (r : Variable)
    (hc : caller.wfb = true) :
    (s.set_register r (caller.get_register r)).get_register r = caller.get_register r := by
  unfold State.set_register
  by_cases ht : (caller.get_register r).is_top
  · have htop : caller.get_register r = Data.new_top r.size := by
      unfold State.get_register at ht ⊢
      cases hlk : lookupKey caller.register r with
      | none => simp
      | some v =>
        have hs := (wfb_register_sized caller hc hlk).2
        rw [hlk] at ht
        cases v with
        | Top w =>
          simp only [Data.bytesize] at hs
          simp [hlk, Data.new_top, hs]
        | Value i => simp [Data.is_top] at ht
        | Pointer w m => simp [Data.is_top] at ht
    simp only [ht, if_pos]
    rw [htop]
    show (lookupKey (eraseKey r s.register) r).getD (Data.new_top r.size) = Data.new_top r.size
    rw [lookupKey_eraseKey_self]
    rfl
  · simp only [ht, Bool.false_eq_true, if_neg, not_false_iff]
    unfold State.get_register
    simp [lookupKey_insertKey_self]

theorem restore_fold_get_not_mem (caller : State) (r : Variable) :
    ∀ (L : List Variable) (s : State), r ∉ L →
      ((L.foldl (fun st reg => st.set_register reg (caller.get_register reg)) s).get_register r =
        s.get_register r) := by
  intro L
  induction L with
  | nil => intro s _; rfl
  | cons a L ih =>
    intro s hr
    have hra : a ≠ r := fun hEq => hr (hEq ▸ List.mem_cons_self a L)
    have hrL : r ∉ L := fun hmem => hr (List.mem_cons_of_mem a hmem)
    simp only [List.foldl_cons]
    rw [ih _ hrL, get_register_set_register_other s a _ hra]

theorem restore_fold_get_mem (caller : State) (r : Variable) (hc : caller.wfb = true) :
    ∀ (L : List Variable) (s : State), r ∈ L →
      ((L.foldl (fun st reg => st.set_register reg (caller.get_register reg)) s).get_register r =
        caller.get_register r) := by
  intro L
  induction L with
  | nil => intro s h; simp at h
  | cons a L ih =>
    intro s hr
    simp only [List.foldl_cons]
    by_cases hrL : r ∈ L
    · exact ih _ hrL
    · have hra : r = a := by
        rcases List.mem_cons.mp hr with h | h
        · exact h
        · exact absurd h hrL
      subst hra
      rw [restore_fold_get_not_mem caller r L _ hrL,
        get_register_set_register_self s caller r hc]

theorem lookup_erase_foldl (r : Variable) :
    ∀ (L : List Variable) (m : List (Variable × Data)),
      lookupKey (L.foldl (fun acc reg => eraseKey reg acc) m) r =
        if r ∈ L then none else lookupKey m r := by
  intro L
  induction L with
  | nil => intro m; simp
  | cons a L ih =>
    intro m
    simp only [List.foldl_cons, ih]
    by_cases hrL : r ∈ L
    · simp [hrL, List.mem_cons]
    · by_cases hra : r = a
      · subst hra
        simp [hrL, lookupKey_eraseKey_self]
      · have : a ≠ r := fun h => hra h.symm
        simp [hrL, hra, lookupKey_eraseKey_ne m this, List.mem_cons]

/-! ## Claims C9 and C10 -/

/-- Counterexample to claim C9 as stated: for a calling convention whose
callee-saved list contains the stack register, `remove_callee_saved_register`
also deletes the analysis's knowledge of the stack register. -/
theorem claim_C9_counterexample :
    rspVar ∈ cconvWithStackRegister.callee_saved_register ∧
    (stateS0.remove_callee_saved_register cconvWithStackRegister).get_register rspVar ≠
      stateS0.get_register rspVar := by
  constructor
  · decide
  · decide

/-- Claim C9 as amended: `restore_callee_saved_register` copies from the
caller state exactly the callee-saved registers other than the stack
register (the stack register and all registers outside the callee-saved
list keep their value in `self`), while `remove_callee_saved_register`
deletes the state's knowledge of all callee-saved registers — including the
stack register when the calling convention lists it — and leaves all other
register entries unchanged. -/
theorem claim_C9_callee_saved_amended (s caller : State) (cconv : CallingConvention)
    (stack_register r : Variable) (hc : caller.wfb = true) :
    (r ∈ cconv.callee_saved_register → r ≠ stack_register →
      (s.restore_callee_saved_register caller cconv stack_register).get_register r =
        caller.get_register r) ∧
    ((r ∉ cconv.callee_saved_register ∨ r = stack_register) →
      (s.restore_callee_saved_register caller cconv stack_register).get_register r =
        s.get_register r) ∧
    (r ∈ cconv.callee_saved_register →
      (s.remove_callee_saved_register cconv).get_register r = Data.new_top r.size) ∧
    (r ∉ cconv.callee_saved_register →
      (s.remove_callee_saved_register cconv).get_register r = s.get_register r) := by
  refine ⟨?_, ?_, ?_, ?_⟩
  · intro hmem hne
    unfold State.restore_callee_saved_register
    refine restore_fold_get_mem caller r hc _ s ?_
    simp only [List.mem_filter, decide_eq_true_eq]
    exact ⟨hmem, hne⟩
  · intro hcase
    unfold State.restore_callee_saved_register
    refine restore_fold_get_not_mem caller r _ s ?_
    simp only [List.mem_filter, decide_eq_true_eq, not_and]
    intro hmem
    rcases hcase with h | h
    · exact absurd hmem h
    · intro hne; exact hne h
  · intro hmem
    unfold State.remove_callee_saved_register State.get_register
    simp [lookup_erase_foldl, hmem, Data.new_top]
  · intro hmem
    unfold State.remove_callee_saved_register State.get_register
    simp [lookup_erase_foldl, hmem]

/-- Witness for the amended claim C9 at concrete inputs: RBP (callee-saved,
not the stack register) is copied from the caller, and RDI (not
callee-saved) is untouched by the removal. -/
theorem claim_C9_callee_saved_amended_witness :
    (stateS0.restore_callee_saved_register callerState cconvX64 rspVar).get_register rbpVar =
      callerState.get_register rbpVar ∧
    (stateS0.remove_callee_saved_register cconvX64).get_register rdiVar =
      stateS0.get_register rdiVar := by
  have h1 := claim_C9_callee_saved_amended stateS0 callerState cconvX64 rspVar rbpVar (by decide)
  have h2 := claim_C9_callee_saved_amended stateS0 callerState cconvX64 rspVar rdiVar (by decide)
  exact ⟨h1.1 (by decide) (by decide), h2.2.2.2 (by decide)⟩

/-- Claim C10: `set_mips_link_register` is atomic on failure — if the callee
address string does not parse as a hexadecimal 64-bit literal, the error is
returned and the state is completely unchanged; on success the only change
is that the non-temporary register `t9` of pointer size is set to the parsed
address resized (unsigned) to the pointer size. -/
theorem claim_C10_set_mips_link_register (s : State) (callee_tid : Tid) (psz : Nat) :
    (u64_from_str_radix_16 callee_tid.address = none →
      s.set_mips_link_register callee_tid psz =
        (s, some "Could not parse the callee address")) ∧
    (∀ n : Nat, u64_from_str_radix_16 callee_tid.address = some n →
      (s.set_mips_link_register callee_tid psz).2 = none ∧
      (s.set_mips_link_register callee_tid psz).1.get_register ⟨"t9", psz, false⟩ =
        .Value ⟨psz, ((n % 2 ^ (8 * psz) : Nat) : Int), ((n % 2 ^ (8 * psz) : Nat) : Int)⟩ ∧
      (∀ v : Variable, v ≠ ⟨"t9", psz, false⟩ →
        (s.set_mips_link_register callee_tid psz).1.get_register v = s.get_register v) ∧
      (s.set_mips_link_register callee_tid psz).1.memory = s.memory ∧
      (s.set_mips_link_register callee_tid psz).1.stack_id = s.stack_id ∧
      (s.set_mips_link_register callee_tid psz).1.caller_stack_ids = s.caller_stack_ids ∧
      (s.set_mips_link_register callee_tid psz).1.ids_known_to_caller =
        s.ids_known_to_caller) := by
  constructor
  · intro h
    unfold State.set_mips_link_register
    rw [h]
  · intro n h
    have heq : s.set_mips_link_register callee_tid psz =
        (s.set_register ⟨"t9", psz, false⟩
          (.Value ⟨psz, ((n % 2 ^ (8 * psz) : Nat) : Int), ((n % 2 ^ (8 * psz) : Nat) : Int)⟩),
          none) := by
      unfold State.set_mips_link_register
      rw [h]
    rw [heq]
    have hpres := set_register_preserves_memory s ⟨"t9", psz, false⟩
      (.Value ⟨psz, ((n % 2 ^ (8 * psz) : Nat) : Int), ((n % 2 ^ (8 * psz) : Nat) : Int)⟩)
    refine ⟨rfl, ?_, ?_, hpres.1, hpres.2.1, hpres.2.2.1, hpres.2.2.2⟩
    · unfold State.set_register State.get_register
      simp [Data.is_top, lookupKey_insertKey_self]
    · intro v hv
      exact get_register_set_register_other s _ _ (fun hEq => hv hEq.symm)

/-- Witness for claim C10 at concrete inputs: an unparsable address leaves
the state untouched, a parsable address sets `t9` and nothing else. -/
theorem claim_C10_set_mips_link_register_witness :
    stateS0.set_mips_link_register ⟨"callee", "UNKNOWN"⟩ 8 =
      (stateS0, some "Could not parse the callee address") ∧
    (stateS0.set_mips_link_register tidFunc 8).1.get_register ⟨"t9", 8, false⟩ =
      .Value ⟨8, ((4096 % 2 ^ (8 * 8) : Nat) : Int), ((4096 % 2 ^ (8 * 8) : Nat) : Int)⟩ ∧
    (stateS0.set_mips_link_register tidFunc 8).1.get_register rspVar =
      stateS0.get_register rspVar := by
  have h1 := claim_C10_set_mips_link_register stateS0 ⟨"callee", "UNKNOWN"⟩ 8
  have h2 := claim_C10_set_mips_link_register stateS0 tidFunc 8
  exact ⟨h1.1 (by decide), (h2.2 4096 (by decide)).2.1,
    (h2.2 4096 (by decide)).2.2.1 rspVar (by decide)⟩

/-! ## Claim C3: merging a state with itself -/

theorem mergeRegisters_self (l : List (Variable × Data)) (hn : keysNodup l = true)
    (hw : ∀ p ∈ l, p.2.wfb = true) :
    mergeRegisters l l = l.filter (fun p => !p.2.is_top) := by
  unfold mergeRegisters
  refine filterMap_eq_filter_of l ?_
  intro p hp
  rw [lookupKey_self_of_nodup hn p hp]
  simp only [data_merge_self p.2 (hw p hp)]
  by_cases ht : p.2.is_top
  · simp [ht]
  · simp only [Bool.not_eq_true] at ht
    simp [ht]

/-- Claim C3: for every (well-formed) state `s`, `State::merge(s, s)` equals
the state obtained from `s` by dropping exactly those register entries whose
value is `Top`; in particular, if no register entry of `s` is `Top`, then
`merge(s, s)` equals `s`.  The well-formedness hypothesis is the `BTreeMap`
key-uniqueness invariant that every Rust `State` enjoys by construction. -/
theorem claim_C3_merge_self (s : State) (hw : s.wfb = true) :
    State.merge s s = some { s with register := s.register.filter (fun p => !p.2.is_top) } ∧
    ((∀ p ∈ s.register, p.2.is_top = false) → State.merge s s = some s) := by
  have hparts : keysNodup s.register = true ∧
      (∀ p ∈ s.register, p.2.wfb = true) ∧
      keysNodup s.memory = true ∧
      (∀ p ∈ s.memory, p.2.wfb = true) := by
    simp only [State.wfb, Bool.and_eq_true, List.all_eq_true] at hw
    refine ⟨hw.1.1.1, ?_, hw.1.2, hw.2⟩
    intro p hp
    have := hw.1.1.2 p hp
    simp only [Bool.and_eq_true] at this
    exact this.1
  have hmain :
      State.merge s s = some { s with register := s.register.filter (fun p => !p.2.is_top) } := by
    unfold State.merge
    rw [if_pos rfl]
    rw [mergeRegisters_self s.register hparts.1 hparts.2.1]
    rw [mergeKeyed_self AbstractObject.merge s.memory hparts.2.2.1
      (fun p hp => object_merge_self p.2 (hparts.2.2.2 p hp))]
    rw [setUnion_self, setUnion_self]
  refine ⟨hmain, ?_⟩
  intro hnotop
  rw [hmain]
  have : s.register.filter (fun p => !p.2.is_top) = s.register := by
    rw [List.filter_eq_self]
    intro p hp
    simp [hnotop p hp]
  rw [this]

/-- Witness for claim C3 at a concrete input: the fresh entry state is
well-formed, has no `Top` register entry, and merging it with itself gives
it back unchanged. -/
theorem claim_C3_merge_self_witness :
    stateS0.wfb = true ∧ State.merge stateS0 stateS0 = some stateS0 :=
  ⟨by decide, (claim_C3_merge_self stateS0 (by decide)).2 (by decide)⟩

/-! ## Claim C7: clearing stack parameters of an extern call -/

theorem getLast?_cons_getD {α : Type} (a : α) (l : List α) :
    (a :: l).getLast? = some (l.getLast?.getD a) := by
  induction l generalizing a with
  | nil => rfl
  | cons b l ih =>
    rw [List.getLast?_cons_cons, ih b]
    simp

theorem lastOr_cons (e : String) (l : List String) (log : Option String) :
    lastOr (e :: l) log = lastOr l (some e) := by
  unfold lastOr
  rw [getLast?_cons_getD]
  cases hl : l.getLast? <;> simp

theorem clear_stack_parameter_loop (gm : RuntimeMemoryImage) (args : List Arg) :
    ∀ (s : State) (log : Option String),
      args.foldl
        (fun acc arg =>
          match arg with
          | .Register _ _ => acc
          | .Stack address size _ =>
            match acc.1.write_to_address address (Data.new_top size) gm with
            | .ok st => (st, acc.2)
            | .error e => (acc.1, some e))
        (s, log) =
      (applyStackWrites s args gm, lastOr (stackWriteErrors s args gm) log) := by
  induction args with
  | nil => intro s log; rfl
  | cons arg rest ih =>
    intro s log
    cases arg with
    | Register e dt =>
      simp only [List.foldl_cons]
      rw [ih s log]
      rfl
    | Stack address size dt =>
      simp only [List.foldl_cons]
      cases hw : s.write_to_address address (Data.new_top size) gm with
      | ok st =>
        show List.foldl
            (fun acc arg =>
              match arg with
              | .Register _ _ => acc
              | .Stack address size _ =>
                match acc.1.write_to_address address (Data.new_top size) gm with
                | .ok st => (st, acc.2)
                | .error e => (acc.1, some e))
            (st, log) rest =
          (applyStackWrites s (Arg.Stack address size dt :: rest) gm,
            lastOr (stackWriteErrors s (Arg.Stack address size dt :: rest) gm) log)
        rw [ih st log]
        have ha : applyStackWrites s (Arg.Stack address size dt :: rest) gm =
            applyStackWrites st rest gm := by
          show (match s.write_to_address address (Data.new_top size) gm with
            | .ok st => applyStackWrites st rest gm
            | .error _ => applyStackWrites s rest gm) = applyStackWrites st rest gm
          rw [hw]
        have he : stackWriteErrors s (Arg.Stack address size dt :: rest) gm =
            stackWriteErrors st rest gm := by
          show (match s.write_to_address address (Data.new_top size) gm with
            | .ok st => stackWriteErrors st rest gm
            | .error e => e :: stackWriteErrors s rest gm) = stackWriteErrors st rest gm
          rw [hw]
        rw [ha, he]
      | error e =>
        show List.foldl
            (fun acc arg =>
              match arg with
              | .Register _ _ => acc
              | .Stack address size _ =>
                match acc.1.write_to_address address (Data.new_top size) gm with
                | .ok st => (st, acc.2)
                | .error e => (acc.1, some e))
            (s, some e) rest =
          (applyStackWrites s (Arg.Stack address size dt :: rest) gm,
            lastOr (stackWriteErrors s (Arg.Stack address size dt :: rest) gm) log)
        rw [ih s (some e)]
        have ha : applyStackWrites s (Arg.Stack address size dt :: rest) gm =
            applyStackWrites s rest gm := by
          show (match s.write_to_address address (Data.new_top size) gm with
            | .ok st => applyStackWrites st rest gm
            | .error _ => applyStackWrites s rest gm) = applyStackWrites s rest gm
          rw [hw]
        have he : stackWriteErrors s (Arg.Stack address size dt :: rest) gm =
            e :: stackWriteErrors s rest gm := by
          show (match s.write_to_address address (Data.new_top size) gm with
            | .ok st => stackWriteErrors st rest gm
            | .error e => e :: stackWriteErrors s rest gm) =
              e :: stackWriteErrors s rest gm
          rw [hw]
        rw [ha, he, lastOr_cons]

theorem allRegisterArgs_no_effect (gm : RuntimeMemoryImage) (args : List Arg)
    (h : allRegisterArgs args = true) :
    ∀ s : State, applyStackWrites s args gm = s ∧ stackWriteErrors s args gm = [] := by
  induction args with
  | nil => intro s; exact ⟨rfl, rfl⟩
  | cons arg rest ih =>
    intro s
    cases arg with
    | Register e dt =>
      have h' : allRegisterArgs rest = true := by
        simpa [allRegisterArgs] using h
      exact ih h' s
    | Stack address size dt =>
      simp [allRegisterArgs] at h

/-- Claim C7: for every extern symbol, `clear_stack_parameter` attempts the
`Top`-overwrite for every stack-passed parameter even when earlier writes
fail (the final state is the declarative sequential application of all
writes, failing writes leaving the state unchanged), leaves register-passed
parameters untouched, returns `Ok` exactly when no write fails, and when one
or more writes fail returns the error of the last failing write while the
successful writes still take effect. -/
theorem claim_C7_clear_stack_parameter (s : State) (sym : ExternSymbol)
    (gm : RuntimeMemoryImage) :
    (s.clear_stack_parameter sym gm).1 = applyStackWrites s sym.parameters gm ∧
    (s.clear_stack_parameter sym gm).2 = (stackWriteErrors s sym.parameters gm).getLast? ∧
    ((s.clear_stack_parameter sym gm).2 = none ↔ stackWriteErrors s sym.parameters gm = []) ∧
    (allRegisterArgs sym.parameters = true → s.clear_stack_parameter sym gm = (s, none)) := by
  have hloop := clear_stack_parameter_loop gm sym.parameters s none
  have h1 : s.clear_stack_parameter sym gm =
      (applyStackWrites s sym.parameters gm, lastOr (stackWriteErrors s sym.parameters gm) none) :=
    hloop
  have hlast : lastOr (stackWriteErrors s sym.parameters gm) none =
      (stackWriteErrors s sym.parameters gm).getLast? := by
    unfold lastOr
    cases (stackWriteErrors s sym.parameters gm).getLast? <;> rfl
  refine ⟨by rw [h1], by rw [h1]; exact hlast, ?_, ?_⟩
  · rw [h1]
    simp only [hlast]
    cases hl : stackWriteErrors s sym.parameters gm with
    | nil => simp
    | cons e l =>
      rw [getLast?_cons_getD]
      simp
  · intro hall
    have heff := allRegisterArgs_no_effect gm sym.parameters hall s
    rw [h1, heff.1, heff.2]
    rfl

/-- Witness for claim C7 at a concrete input: a symbol with only register
parameters leaves the state untouched and reports no error. -/
theorem claim_C7_clear_stack_parameter_witness :
    stateS0.clear_stack_parameter regOnlySymbol ⟨4096⟩ = (stateS0, none) :=
  (claim_C7_clear_stack_parameter stateS0 regOnlySymbol ⟨4096⟩).2.2.2 (by decide)

/-! ## Claim C2: garbage collection retains all reachable objects -/

theorem mem_registerRefIds {l : List (Variable × Data)} {v : Variable} {d : Data}
    {i : AbstractIdentifier} (hm : (v, d) ∈ l) (hi : i ∈ d.referenced_ids) :
    i ∈ registerRefIds l := by
  induction l with
  | nil => simp at hm
  | cons p rest ih =>
    simp only [registerRefIds, List.foldr_cons]
    rcases List.mem_cons.mp hm with h | h
    · refine Finset.mem_union_left _ ?_
      rw [← h]
      exact List.mem_toFinset.mpr hi
    · exact Finset.mem_union_right _ (ih h)

theorem mem_objectRefIds {memory : AbstractObjectList} {t : Finset AbstractIdentifier}
    {i j : AbstractIdentifier} {o : AbstractObject} (hm : (i, o) ∈ memory) (hi : i ∈ t)
    (hj : j ∈ o.referenced_ids) : j ∈ objectRefIds memory t := by
  induction memory with
  | nil => simp at hm
  | cons p rest ih =>
    obtain ⟨pi, po⟩ := p
    simp only [objectRefIds, List.foldr_cons]
    rcases List.mem_cons.mp hm with h | h
    · injection h with h1 h2
      subst h1
      subst h2
      rw [if_pos hi]
      exact Finset.mem_union_left _ (List.mem_toFinset.mpr hj)
    · have hrec := ih h
      by_cases hp1 : pi ∈ t
      · rw [if_pos hp1]
        exact Finset.mem_union_right _ hrec
      · rw [if_neg hp1]
        exact hrec

theorem objectRefIds_subset_universe (memory : AbstractObjectList)
    (t : Finset AbstractIdentifier) : objectRefIds memory t ⊆ memRefUniverse memory := by
  induction memory with
  | nil => simp [objectRefIds, memRefUniverse]
  | cons p rest ih =>
    simp only [objectRefIds, memRefUniverse, List.foldr_cons]
    by_cases hp1 : p.1 ∈ t
    · rw [if_pos hp1]
      exact Finset.union_subset_union_right ih
    · rw [if_neg hp1]
      exact Finset.Subset.trans ih Finset.subset_union_right

theorem subset_reachStep (memory : AbstractObjectList) (t : Finset AbstractIdentifier) :
    t ⊆ reachStep memory t :=
  Finset.subset_union_left

theorem reachStep_subset (memory : AbstractObjectList) (t : Finset AbstractIdentifier) :
    reachStep memory t ⊆ t ∪ memRefUniverse memory :=
  Finset.union_subset_union (Finset.Subset.refl t) (objectRefIds_subset_universe memory t)

theorem subset_iterate (memory : AbstractObjectList) (t : Finset AbstractIdentifier) :
    ∀ n : Nat, t ⊆ (reachStep memory)^[n] t := by
  intro n
  induction n with
  | zero => exact Finset.Subset.refl t
  | succ n ih =>
    rw [Function.iterate_succ_apply']
    exact Finset.Subset.trans ih (subset_reachStep memory _)

theorem iterate_subset_union (memory : AbstractObjectList) (t : Finset AbstractIdentifier) :
    ∀ n : Nat, (reachStep memory)^[n] t ⊆ t ∪ memRefUniverse memory := by
  intro n
  induction n with
  | zero => exact Finset.subset_union_left
  | succ n ih =>
    rw [Function.iterate_succ_apply']
    exact Finset.Subset.trans (reachStep_subset memory _)
      (Finset.union_subset ih Finset.subset_union_right)

theorem iterate_card_growth (memory : AbstractObjectList) (t : Finset AbstractIdentifier) :
    ∀ n : Nat, (∀ m : Nat, m < n →
        (reachStep memory)^[m + 1] t ≠ (reachStep memory)^[m] t) →
      t.card + n ≤ ((reachStep memory)^[n] t).card := by
  intro n
  induction n with
  | zero => intro _; simp
  | succ n ih =>
    intro h
    have hn := ih (fun m hm => h m (Nat.lt_trans hm (Nat.lt_succ_self n)))
    have hsub : (reachStep memory)^[n] t ⊆ (reachStep memory)^[n + 1] t := by
      rw [Function.iterate_succ_apply']
      exact subset_reachStep memory _
    have hss : (reachStep memory)^[n] t ⊂ (reachStep memory)^[n + 1] t :=
      Finset.ssubset_iff_subset_ne.mpr ⟨hsub, Ne.symm (h n (Nat.lt_succ_self n))⟩
    have := Finset.card_lt_card hss
    omega

theorem exists_saturation (memory : AbstractObjectList) (t : Finset AbstractIdentifier) :
    ∃ m : Nat, m ≤ (memRefUniverse memory).card ∧
      (reachStep memory)^[m + 1] t = (reachStep memory)^[m] t := by
  by_contra h
  push_neg at h
  have hgrow := iterate_card_growth memory t ((memRefUniverse memory).card + 1)
    (fun m hm => h m (Nat.lt_succ_iff.mp hm))
  have hbound : (((reachStep memory)^[(memRefUniverse memory).card + 1]) t).card ≤
      t.card + (memRefUniverse memory).card := by
    refine le_trans (Finset.card_le_card
      (iterate_subset_union memory t ((memRefUniverse memory).card + 1))) ?_
    exact Finset.card_union_le t (memRefUniverse memory)
  omega

theorem iterate_fixed_from {α : Type} (f : α → α) (x : α) (m : Nat)
    (hfix : f^[m + 1] x = f^[m] x) : ∀ k : Nat, f^[m + k] x = f^[m] x := by
  intro k
  induction k with
  | zero => rfl
  | succ k ih =>
    have hidx : m + (k + 1) = (m + k) + 1 := by omega
    rw [hidx, Function.iterate_succ_apply' f (m + k) x, ih,
      ← Function.iterate_succ_apply' f m x]
    exact hfix

theorem reachStep_closure_fixed (memory : AbstractObjectList) (t : Finset AbstractIdentifier) :
    reachStep memory ((reachStep memory)^[(memRefUniverse memory).card + 1] t) =
      (reachStep memory)^[(memRefUniverse memory).card + 1] t := by
  obtain ⟨m, hm, hfix⟩ := exists_saturation memory t
  have h1 := iterate_fixed_from (reachStep memory) t m hfix
  have hidx : (memRefUniverse memory).card + 1 = m + ((memRefUniverse memory).card + 1 - m) := by
    omega
  have e1 : (reachStep memory)^[(memRefUniverse memory).card + 1] t =
      (reachStep memory)^[m] t := by
    rw [hidx]
    exact h1 ((memRefUniverse memory).card + 1 - m)
  have e2 : reachStep memory ((reachStep memory)^[m] t) = (reachStep memory)^[m] t := by
    rw [← Function.iterate_succ_apply' (reachStep memory) m t]
    exact h1 1
  rw [e1, e2]

theorem mem_seed_of_special (s : State) (i : AbstractIdentifier)
    (h : i = s.stack_id ∨ i ∈ s.caller_stack_ids ∨ i ∈ s.ids_known_to_caller) :
    i ∈ s.referencedIdsSeed := by
  unfold State.referencedIdsSeed
  refine Finset.mem_union_right _ ?_
  rcases h with rfl | h | h
  · exact Finset.mem_union_left _ (Finset.mem_union_left _ (Finset.mem_singleton_self _))
  · exact Finset.mem_union_left _ (Finset.mem_union_right _ (List.mem_toFinset.mpr h))
  · exact Finset.mem_union_right _ (List.mem_toFinset.mpr h)

theorem reaches_mem_closure (s : State) (i : AbstractIdentifier) (h : Reaches s i) :
    i ∈ s.add_directly_reachable_ids_to_id_set s.referencedIdsSeed := by
  unfold State.add_directly_reachable_ids_to_id_set
  induction h with
  | from_register v d i hm hi =>
    refine subset_iterate s.memory _ _ ?_
    unfold State.referencedIdsSeed
    exact Finset.mem_union_left _ (mem_registerRefIds hm hi)
  | from_stack =>
    exact subset_iterate s.memory _ _ (mem_seed_of_special s s.stack_id (Or.inl rfl))
  | from_caller i hi =>
    exact subset_iterate s.memory _ _ (mem_seed_of_special s i (Or.inr (Or.inl hi)))
  | from_known i hi =>
    exact subset_iterate s.memory _ _ (mem_seed_of_special s i (Or.inr (Or.inr hi)))
  | through_object i j o hr hm hj ih =>
    have hstep : j ∈ reachStep s.memory
        ((reachStep s.memory)^[(memRefUniverse s.memory).card + 1] s.referencedIdsSeed) :=
      Finset.mem_union_right _ (mem_objectRefIds hm ih hj)
    rw [reachStep_closure_fixed s.memory s.referencedIdsSeed] at hstep
    exact hstep

/-- Claim C2: `remove_unreferenced_objects` never deletes the memory object
of the current `stack_id`, of any identifier in `caller_stack_ids`, or of
any identifier in `ids_known_to_caller`, regardless of the register
contents; more generally, every object whose identifier lies in the closure
of the identifiers reachable from register values, `stack_id`,
`caller_stack_ids` and `ids_known_to_caller` through pointers stored inside
already-retained objects is retained. -/
theorem claim_C2_remove_unreferenced_objects (s : State) (i : AbstractIdentifier) :
    ((i = s.stack_id ∨ i ∈ s.caller_stack_ids ∨ i ∈ s.ids_known_to_caller) →
      ∀ o : AbstractObject, (i, o) ∈ s.memory →
        (i, o) ∈ s.remove_unreferenced_objects.memory) ∧
    (Reaches s i →
      ∀ o : AbstractObject, (i, o) ∈ s.memory →
        (i, o) ∈ s.remove_unreferenced_objects.memory) := by
  have key : Reaches s i → ∀ o : AbstractObject, (i, o) ∈ s.memory →
      (i, o) ∈ s.remove_unreferenced_objects.memory := by
    intro hr o ho
    have hc := reaches_mem_closure s i hr
    show (i, o) ∈ AbstractObjectList.remove_unused_objects s.memory
      (s.add_directly_reachable_ids_to_id_set s.referencedIdsSeed)
    unfold AbstractObjectList.remove_unused_objects
    refine List.mem_filter.mpr ⟨ho, ?_⟩
    simpa using hc
  refine ⟨?_, key⟩
  intro h
  refine key ?_
  rcases h with rfl | h | h
  · exact Reaches.from_stack
  · exact Reaches.from_caller i h
  · exact Reaches.from_known i h

/-- Witness for claim C2 at a concrete input: the (otherwise unreachable)
caller-frame object and the current stack object both survive the garbage
collection. -/
theorem claim_C2_remove_unreferenced_objects_witness :
    (callerId, (⟨[], some .Stack, .Live⟩ : AbstractObject)) ∈
      stateWithCaller.remove_unreferenced_objects.memory ∧
    (stateWithCaller.stack_id, (⟨[], some .Stack, .Live⟩ : AbstractObject)) ∈
      stateWithCaller.remove_unreferenced_objects.memory := by
  have h1 := claim_C2_remove_unreferenced_objects stateWithCaller callerId
  have h2 := claim_C2_remove_unreferenced_objects stateWithCaller stateWithCaller.stack_id
  exact ⟨h1.1 (Or.inr (Or.inl (by decide))) ⟨[], some .Stack, .Live⟩ (by decide),
    h2.2 Reaches.from_stack ⟨[], some .Stack, .Live⟩ (by decide)⟩

end Cwe
